import Mathlib

set_option maxHeartbeats 1000000

/-! Shallow embedding of the code-artifact materializer (the FileManager class of
the repository): markdown fenced-block extraction, file-path resolution, extension
inference, folder-name sanitization, a small filesystem model for the writer, and
the run-instruction generator.  Strings are modelled as `List Char`; the regular
expressions of the source are modelled by explicit scanners that implement the
host regex engine's leftmost, greedy-with-backtracking semantics (each scanner is
annotated with the regex it implements). -/

/-- The set of characters matched by the host regex class backslash-s and removed
by String.trim: space, tab, line/paragraph separators and the usual Unicode
whitespace code points. -/
def jsSpace (c : Char) : Bool :=
  c = ' ' || c = '\t' || c = '\n' || c = '\r' || c = '\x0b' || c = '\x0c' ||
  c = '\u00A0' || c = '\u1680' || (0x2000 ≤ c.toNat && c.toNat ≤ 0x200A) ||
  c = '\u2028' || c = '\u2029' || c = '\u202F' || c = '\u205F' ||
  c = '\u3000' || c = '\uFEFF'

/-- The host regex word-character class backslash-w: ASCII letters, digits, underscore. -/
def wordChar (c : Char) : Bool :=
  c.isAlphanum || c = '_'

/-- Convenience: the character list underlying a string literal. -/
def chars (s : String) : List Char :=
  s.data

/-- Remove trailing whitespace (the right half of String.trim). -/
def trimRight : List Char → List Char
  | [] => []
  | c :: rest =>
    let r := trimRight rest
    if r = [] ∧ jsSpace c then [] else c :: r

/-- String.trim of the host language: strip leading and trailing whitespace. -/
def trimChars (l : List Char) : List Char :=
  trimRight (l.dropWhile jsSpace)

/-- String.includes of the host language: does `pat` occur as a contiguous
substring of `l`? -/
def containsSub (pat : List Char) : List Char → Bool
  | [] => pat.isEmpty
  | c :: rest => pat.isPrefixOf (c :: rest) || containsSub pat rest

/-- First character of a brace-opened block, i.e. the character `\x7b`. -/
def braceChar : Char := '\x7b'

/-- Head-test used by the CSS-selector scanner: does the list start with `\x7b`? -/
def braceHead : List Char → Bool
  | c :: _ => c = braceChar
  | [] => false

/-- Word-or-dash class `[\w-]` of the CSS selector regex. -/
def wordDash (c : Char) : Bool :=
  wordChar c || c = '-'

/-- Match of the regex `[.#][\w-]+\s*\x7b` anchored at the head of `l`
(deterministic: the three character classes are pairwise disjoint at their
boundaries, so greedy matching needs no backtracking here). -/
def cssAt : List Char → Bool
  | c :: rest =>
    (c = '.' || c = '#') &&
      (match rest with
       | d :: _ => wordDash d && braceHead ((rest.dropWhile wordDash).dropWhile jsSpace)
       | [] => false)
  | [] => false

/-- Unanchored search for the CSS selector regex `[.#][\w-]+\s*\x7b`
(content.match with no anchors: try every position left to right). -/
def cssSelectorTest : List Char → Bool
  | [] => false
  | c :: rest => cssAt (c :: rest) || cssSelectorTest rest

/-- Match of the regex `^[\s]*<[\w]+` (anchored at the start of the whole string,
no multiline flag). -/
def startsXmlTag (l : List Char) : Bool :=
  match l.dropWhile jsSpace with
  | '<' :: d :: _ => wordChar d
  | _ => false

/-- inferExtensionFromContent of the source: fixed first-match-wins cascade of
content heuristics; defaults to ".js". -/
def inferExtensionFromContent (content : List Char) : List Char :=
  if containsSub (chars "<!DOCTYPE") content || containsSub (chars "<html") content then
    chars ".html"
  else if (containsSub (chars "@media") content || containsSub [braceChar] content) &&
          cssSelectorTest content then
    chars ".css"
  else if containsSub (chars "import ") content && containsSub (chars "from ") content then
    chars ".js"
  else if containsSub (chars "require(") content then
    chars ".js"
  else if (containsSub (chars "def ") content || containsSub (chars "import ") content) &&
          (containsSub (chars "print(") content && !containsSub (chars "console.") content) then
    chars ".py"
  else if containsSub (chars "package ") content || containsSub (chars "public class") content then
    chars ".java"
  else if containsSub (chars "<?php") content then
    chars ".php"
  else if startsXmlTag content then
    chars ".html"
  else
    chars ".js"

/-- getExtensionFromLanguage of the source: fixed lowercased lookup table,
unknown tags map to ".txt". -/
def getExtensionFromLanguage (language : List Char) : List Char :=
  match String.mk (language.map Char.toLower) with
  | "javascript" => chars ".js"
  | "js" => chars ".js"
  | "typescript" => chars ".ts"
  | "ts" => chars ".ts"
  | "python" => chars ".py"
  | "py" => chars ".py"
  | "java" => chars ".java"
  | "html" => chars ".html"
  | "css" => chars ".css"
  | "json" => chars ".json"
  | "xml" => chars ".xml"
  | "yaml" => chars ".yaml"
  | "yml" => chars ".yml"
  | "markdown" => chars ".md"
  | "md" => chars ".md"
  | "sql" => chars ".sql"
  | "sh" => chars ".sh"
  | "bash" => chars ".sh"
  | "go" => chars ".go"
  | "rust" => chars ".rs"
  | "cpp" => chars ".cpp"
  | "c" => chars ".c"
  | "php" => chars ".php"
  | "ruby" => chars ".rb"
  | "swift" => chars ".swift"
  | "kotlin" => chars ".kt"
  | _ => chars ".txt"

/-! ### Leading-comment file-path patterns

The source tries four regexes in a fixed order against the block body and takes
the first regex that matches anywhere (using that regex's leftmost match):
  1. `^//\s*File:\s*([^\n]+)` (multiline)
  2. `^#\s*File:\s*([^\n]+)` (multiline)
  3. `^<!--\s*File:\s*([^\n]+)\s*-->` (multiline)
  4. `/\*\s*File:\s*([^*]+)\*/` (multiline flag, but no anchor, so it matches at
     any position)
Each has the shape  marker, `\s*`, `File:`, `\s*`, capture-plus-class, optional
tail.  The `\s*` before `File:` is deterministic (F is not whitespace).  For the
part after `File:` the engine maximizes the second `\s*` run first (backtracking
one whitespace character at a time on failure), then maximizes the capture, then
checks the tail; `tailSearchA`/`tailSearchB` implement exactly that order. -/

/-- Try capture lengths `b, b-1, ..., 1` (greedy, longest first): the capture is
`(s.drop a).take b` and must be followed by a position where `post` holds. -/
def tailSearchB (post : List Char → Bool) (s : List Char) (a : Nat) : Nat → Option (List Char)
  | 0 => none
  | b + 1 =>
    if post (s.drop (a + b + 1)) then some ((s.drop a).take (b + 1))
    else tailSearchB post s a b

/-- Try whitespace-run lengths `a, a-1, ..., 0` (greedy, longest first); at each,
the capture is the maximal run of `capC` characters, shrunk by `tailSearchB`. -/
def tailSearchA (capC : Char → Bool) (post : List Char → Bool) (s : List Char) : Nat → Option (List Char)
  | 0 => tailSearchB post s 0 ((s.takeWhile capC).length)
  | a + 1 =>
    match tailSearchB post s (a + 1) (((s.drop (a + 1)).takeWhile capC).length) with
    | some r => some r
    | none => tailSearchA capC post s a

/-- Leftmost-greedy match of `\s*(capC+)post` against `s`, returning the capture. -/
def searchAB (capC : Char → Bool) (post : List Char → Bool) (s : List Char) : Option (List Char) :=
  tailSearchA capC post s ((s.takeWhile jsSpace).length)

/-- Match of `\s*File:\s*(capC+)post` against `s` (the part of each comment
pattern after its marker), returning the raw capture. -/
def fileTail (capC : Char → Bool) (post : List Char → Bool) (s : List Char) : Option (List Char) :=
  let s1 := s.dropWhile jsSpace
  if (chars "File:").isPrefixOf s1 then searchAB capC post (s1.drop 5) else none

/-- Pattern 1 `//\s*File:\s*([^\n]+)` tried at one position. -/
def p1At (l : List Char) : Option (List Char) :=
  if (chars "//").isPrefixOf l then
    fileTail (fun c => !(c = '\n')) (fun _ => true) (l.drop 2)
  else none

/-- Pattern 2 `#\s*File:\s*([^\n]+)` tried at one position. -/
def p2At (l : List Char) : Option (List Char) :=
  if (chars "#").isPrefixOf l then
    fileTail (fun c => !(c = '\n')) (fun _ => true) (l.drop 1)
  else none

/-- Pattern 3 `<!--\s*File:\s*([^\n]+)\s*-->` tried at one position. -/
def p3At (l : List Char) : Option (List Char) :=
  if (chars "<!--").isPrefixOf l then
    fileTail (fun c => !(c = '\n'))
      (fun r => (chars "-->").isPrefixOf (r.dropWhile jsSpace)) (l.drop 4)
  else none

/-- Pattern 4 `/\*\s*File:\s*([^*]+)\*/` tried at one position. -/
def p4At (l : List Char) : Option (List Char) :=
  if (chars "/*").isPrefixOf l then
    fileTail (fun c => !(c = '*')) (fun r => (chars "*/").isPrefixOf r) (l.drop 2)
  else none

/-- Try `m` at every position that immediately follows a newline, left to right
(the line starts other than position 0, for a multiline-anchored pattern). -/
def scanAfterNl (m : List Char → Option (List Char)) : List Char → Option (List Char)
  | [] => none
  | c :: rest =>
    if c = '\n' then
      match m rest with
      | some r => some r
      | none => scanAfterNl m rest
    else scanAfterNl m rest

/-- Leftmost match of a `^`-anchored multiline pattern: try position 0, then
every position following a newline, in document order. -/
def scanStarts (m : List Char → Option (List Char)) (l : List Char) : Option (List Char) :=
  match m l with
  | some r => some r
  | none => scanAfterNl m l

/-- Leftmost match of an unanchored pattern: try every position left to right. -/
def scanAll (m : List Char → Option (List Char)) : List Char → Option (List Char)
  | [] => none
  | c :: rest =>
    match m (c :: rest) with
    | some r => some r
    | none => scanAll m rest

/-- The comment-pattern loop of parseCodeFiles: the four patterns are tried in
source order, and the first PATTERN that matches anywhere wins (with its own
leftmost capture) — the loop breaks at the first pattern whose match succeeds. -/
def findCommentPath (body : List Char) : Option (List Char) :=
  match scanStarts p1At body with
  | some r => some r
  | none =>
    match scanStarts p2At body with
    | some r => some r
    | none =>
      match scanStarts p3At body with
      | some r => some r
      | none => scanAll p4At body

/-! ### Fenced-block scanning

The source scans the markdown with the global regex
   triple-backtick, `(\w+)?`, `(?::([^\n]+))?`, `\n`, lazy body, triple-backtick.
The engine tries each start position left to right (on failure it advances one
character), and after a successful match resumes right after the closing fence.
At a fence, the header part is deterministic: the language run is the maximal
`\w` run (a shorter run would be followed by a word character, which is neither
`:` nor a newline), the optional `:path` capture is the rest of the line when a
colon follows (it must be non-empty and be terminated by a newline), and
otherwise a newline must follow immediately.  The lazy body ends at the first
subsequent triple-backtick. -/

/-- The backtick character (code point 96). -/
def tickChar : Char := Char.ofNat 96

/-- One raw fenced block: language tag, raw `:path` annotation, verbatim body. -/
structure RawBlock where
  lang : List Char
  pathRaw : List Char
  body : List Char
deriving DecidableEq

/-- Match the fence header (after the three opening backticks) against `m`:
returns the language run, the raw path capture, and the number of characters of
`m` consumed up to and including the header newline. -/
def matchHeaderCount (m : List Char) : Option (List Char × List Char × Nat) :=
  let lang := m.takeWhile wordChar
  let k := lang.length
  match m.drop k with
  | ':' :: r2 =>
    let p := r2.takeWhile (fun c => !(c = '\n'))
    match p, r2.drop p.length with
    | _ :: _, '\n' :: _ => some (lang, p, k + 1 + p.length + 1)
    | _, _ => none
  | '\n' :: _ => some (lang, [], k + 1)
  | _ => none

/-- Index of the first closing triple-backtick in the remaining text. -/
def closeIndex : List Char → Option Nat
  | [] => none
  | c :: rest =>
    if (chars "```").isPrefixOf (c :: rest) then some 0
    else (closeIndex rest).map (· + 1)

/-- The global-regex scan, fueled for structural recursion: every recursive call
consumes at least one character of the text (a failed fence attempt advances by
one, a successful match consumes the whole block), so fuel exceeding the text
length is never exhausted and the result is the full scan. -/
def scanBlocksF : Nat → List Char → List RawBlock
  | 0, _ => []
  | _ + 1, [] => []
  | _ + 1, [_] => []
  | _ + 1, [_, _] => []
  | fuel + 1, c :: d :: e :: tl =>
    if c = tickChar ∧ d = tickChar ∧ e = tickChar then
      match matchHeaderCount tl with
      | some (lang, pth, n) =>
        match closeIndex (tl.drop n) with
        | some k =>
          ⟨lang, pth, (tl.drop n).take k⟩ :: scanBlocksF fuel ((tl.drop n).drop (k + 3))
        | none => scanBlocksF fuel (d :: e :: tl)
      | none => scanBlocksF fuel (d :: e :: tl)
    else scanBlocksF fuel (d :: e :: tl)

/-- The global-regex scan: produce the raw blocks in document order. -/
def scanBlocks (l : List Char) : List RawBlock :=
  scanBlocksF (l.length + 1) l

/-! ### Path resolution and the parse pipeline -/

/-- One extracted file artifact: resolved relative path and verbatim content. -/
structure FileEntry where
  filePath : List Char
  content : List Char
deriving DecidableEq

/-- The normalization `filePath.replace(regex of one leading dot-slash or slash, "")`:
strip a single leading "./" or "/". -/
def stripLead (l : List Char) : List Char :=
  if (chars "./").isPrefixOf l then l.drop 2
  else if (chars "/").isPrefixOf l then l.drop 1
  else l

/-- Index-based naming: block 0 is `main<ext>`, block i (i ≥ 1) is `file<i+1><ext>`. -/
def nameFor (idx : Nat) (ext : List Char) : List Char :=
  if idx = 0 then chars "main" ++ ext
  else chars "file" ++ (toString (idx + 1)).data ++ ext

/-- Priority 3 of the path resolver: name derived from the language tag when
present, otherwise from content sniffing. -/
def resolvedName (language body : List Char) (idx : Nat) : List Char :=
  if language = [] then nameFor idx (inferExtensionFromContent body)
  else nameFor idx (getExtensionFromLanguage language)

/-- The full per-block path resolution of parseCodeFiles: explicit `:path` first,
then a leading-comment `File:` declaration (only scanned when the body is not
whitespace-only), then index-based naming; finally strip one leading "./" or "/". -/
def resolvePath (b : RawBlock) (idx : Nat) : List Char :=
  let language := trimChars b.lang
  let explicitPath := trimChars b.pathRaw
  let fp0 : List Char :=
    if explicitPath = [] then
      if trimChars b.body = [] then []
      else
        match findCommentPath b.body with
        | some p => trimChars p
        | none => []
    else explicitPath
  let fp1 := if fp0 = [] then resolvedName language b.body idx else fp0
  stripLead fp1

/-- The block loop of parseCodeFiles: blocks whose body trims to empty are
dropped and do not advance the naming index. -/
def processBlocks : List RawBlock → Nat → List FileEntry
  | [], _ => []
  | b :: bs, idx =>
    if trimChars b.body = [] then processBlocks bs idx
    else ⟨resolvePath b idx, b.body⟩ :: processBlocks bs (idx + 1)

/-- The replacement of the multiline regex `#+\s+` anchored at line starts by the
empty string (global): at each line start, a run of `#` followed by at least one
whitespace character is deleted (the whitespace run is consumed greedily and may
span newlines); scanning resumes after the deleted run, which counts as a line
start exactly when the last deleted character was a newline. -/
def stripHeadersF : Nat → List Char → Bool → List Char
  | 0, _, _ => []
  | _ + 1, [], _ => []
  | fuel + 1, c :: rest, atStart =>
    if atStart ∧ c = '#' then
      match rest.dropWhile (fun x => x = '#') with
      | d :: r2 =>
        if jsSpace d then
          stripHeadersF fuel (r2.dropWhile jsSpace)
            (((r2.takeWhile jsSpace).reverse.headD d) = '\n')
        else c :: stripHeadersF fuel rest (c = '\n')
      | [] => c :: stripHeadersF fuel rest (c = '\n')
    else c :: stripHeadersF fuel rest (c = '\n')

/-- The heading-marker removal, with fuel exceeding the text length (every
recursive call consumes at least one character, so the fuel never runs out). -/
def stripHeaders (l : List Char) (atStart : Bool) : List Char :=
  stripHeadersF (l.length + 1) l atStart

/-- The characters excluded at a line start by the fallback code-likeness regex. -/
def badStart (c : Char) : Bool :=
  (chars "#*`[]").contains c

/-- Does the list start with a character outside the excluded set? -/
def headOutside : List Char → Bool
  | d :: _ => !badStart d
  | [] => false

/-- Test positions following a newline for the multiline-anchored class regex. -/
def afterNlTest : List Char → Bool
  | [] => false
  | c :: rest => (c = '\n' && headOutside rest) || afterNlTest rest

/-- The test of the multiline regex `[^#*\x60\[\]]` anchored at line starts: some
line start is followed by a character outside the excluded set. -/
def plainCodeTest : List Char → Bool
  | [] => false
  | c :: rest => !badStart c || afterNlTest (c :: rest)

/-- The whole-text fallback of parseCodeFiles: strip heading markers, trim, and
emit the cleaned text as `main<ext>` when it passes the code-likeness test
(the multiline class regex, or one of the keywords function/class/import). -/
def fallbackFiles (input : List Char) : List FileEntry :=
  if plainCodeTest (trimChars (stripHeaders input true)) ||
     containsSub (chars "function") (trimChars (stripHeaders input true)) ||
     containsSub (chars "class") (trimChars (stripHeaders input true)) ||
     containsSub (chars "import") (trimChars (stripHeaders input true)) then
    [⟨chars "main" ++ inferExtensionFromContent (trimChars (stripHeaders input true)),
      trimChars (stripHeaders input true)⟩]
  else []

/-- parseCodeFiles of the source: scan fenced blocks, resolve paths, drop empty
bodies; if no file resulted and the text is non-empty, apply the whole-text
fallback. -/
def parseCodeFiles (input : List Char) : List FileEntry :=
  if processBlocks (scanBlocks input) 0 = [] ∧ ¬(trimChars input = []) then
    fallbackFiles input
  else processBlocks (scanBlocks input) 0

/-! ### Folder-name sanitization -/

/-- The characters kept by the first sanitization step (the complement of the
regex class of everything outside letters, digits, whitespace, dash, underscore). -/
def allowedChar (c : Char) : Bool :=
  c.isAlphanum || jsSpace c || c = '-' || c = '_'

/-- The global replacement of each maximal whitespace run by one underscore:
the flag records whether the previous character was part of a whitespace run
(so only the first character of each run emits the underscore). -/
def collapseRun : List Char → Bool → List Char
  | [], _ => []
  | c :: rest, prevWs =>
    if jsSpace c then
      if prevWs then collapseRun rest true else '_' :: collapseRun rest true
    else c :: collapseRun rest false

/-- The global replacement of each maximal whitespace run by one underscore. -/
def collapseWs (l : List Char) : List Char :=
  collapseRun l false

/-- sanitizeFolderName of the source: drop disallowed characters, trim, collapse
whitespace runs to single underscores, truncate to 50 characters, and fall back
to "coding_task" when the result is empty. -/
def sanitizeFolderName (task : List Char) : List Char :=
  if (collapseWs (trimChars (task.filter allowedChar))).take 50 = [] then
    chars "coding_task"
  else (collapseWs (trimChars (task.filter allowedChar))).take 50

/-! ### Filesystem model and the project writer

Absolute paths are modelled as lists of segments; the state records which
directories were created and which files were written (with contents), in order.
path.join of the host normalizes "." and ".." segments while joining, which is
what lets a ".." relative path escape the project root. -/

/-- Filesystem state: created directories and written files, in creation order. -/
structure FSState where
  dirs : List (List String)
  files : List (List String × List Char)
deriving DecidableEq

/-- Split a relative path string on slashes. -/
def splitSlash : List Char → List (List Char)
  | [] => [[]]
  | c :: rest =>
    if c = '/' then [] :: splitSlash rest
    else
      match splitSlash rest with
      | s :: ss => (c :: s) :: ss
      | [] => [[c]]

/-- path.join of the host: append the relative path's segments to the base,
resolving "." (skip) and ".." (pop) during normalization. -/
def joinSegs (base : List String) (rel : List Char) : List String :=
  ((splitSlash rel).map (fun s => String.mk s)).foldl
    (fun acc seg =>
      if seg = "" ∨ seg = "." then acc
      else if seg = ".." then acc.dropLast
      else acc ++ [seg]) base

/-- ensureDirectory: record the created directory (mkdir recursive). -/
def ensureDirectory (fs : FSState) (d : List String) : FSState :=
  { fs with dirs := fs.dirs ++ [d] }

/-- writeFilesToFolder of the source: for each entry, join its relative path to
the folder, create the parent directory when it differs from the folder, and
write the content; returns the new state and the created relative paths. -/
def writeFilesToFolder (folderPath : List String) (entries : List FileEntry)
    (fs : FSState) : FSState × List String :=
  entries.foldl
    (fun (st : FSState × List String) e =>
      let full := joinSegs folderPath e.filePath
      let fileDir := full.dropLast
      let fs1 := if fileDir = folderPath then st.1 else ensureDirectory st.1 fileDir
      ({ fs1 with files := fs1.files ++ [(full, e.content)] },
       st.2 ++ [String.mk e.filePath]))
    (fs, [])

/-- writeFiles of the source: parse, fail fast with the "no files found" error
when nothing was extracted, otherwise allocate the (possibly timestamp-suffixed)
project folder and write all files.  `now` models Date.now(). -/
def writeFiles (basePath : List String) (task input : List Char) (now : Nat)
    (fs : FSState) : FSState × Except String (List String × List String) :=
  let parsed := parseCodeFiles input
  if parsed = [] then (fs, Except.error "No files found in generated code")
  else
    let folderName := String.mk (sanitizeFolderName task)
    let folderPath := basePath ++ [folderName]
    if folderPath ∈ fs.dirs then
      let uniqPath := basePath ++ [folderName ++ "_" ++ toString now]
      let fs1 := ensureDirectory fs uniqPath
      let r := writeFilesToFolder uniqPath parsed fs1
      (r.1, Except.ok (uniqPath, r.2))
    else
      let fs1 := ensureDirectory fs folderPath
      let r := writeFilesToFolder folderPath parsed fs1
      (r.1, Except.ok (folderPath, r.2))

/-! ### Run-instruction generation -/

/-- One immediate directory entry of the project root. -/
structure DirEntry where
  name : String
  isFile : Bool
deriving DecidableEq

/-- generateRunInstructions of the source: inspect the immediate files of the
root (`none` models a readdir failure) and emit the numbered instruction list
from a fixed priority cascade. -/
def generateRunInstructions (absPath : String) (listing : Option (List DirEntry)) :
    List String :=
  match listing with
  | none => ["1. cd " ++ absPath, "2. Review the project files to determine how to run"]
  | some entries =>
    let files := (entries.filter (fun e => e.isFile)).map (fun e => e.name)
    if files.contains "package.json" then
      ["1. cd " ++ absPath, "2. npm install", "3. npm start"]
    else if files.contains "requirements.txt" then
      ["1. cd " ++ absPath, "2. pip install -r requirements.txt", "3. python main.py"]
    else if files.contains "index.html" then
      ["1. cd " ++ absPath, "2. open index.html"]
    else if files.contains "main.py" then
      ["1. cd " ++ absPath, "2. python main.py"]
    else if files.contains "main.js" || files.contains "index.js" then
      ["1. cd " ++ absPath,
       "2. node " ++ (if files.contains "main.js" then "main.js" else "index.js")]
    else if files.any (fun f => f.endsWith ".html") then
      ["1. cd " ++ absPath,
       "2. open " ++ ((files.find? (fun f => f.endsWith ".html")).getD "")]
    else
      ["1. cd " ++ absPath, "2. Check the project files and run the appropriate command"]

/-! ### Spec-side definitions

The following definitions follow the wording of the specification (not the
source); the claims relate them to the source-embedded definitions above. -/

/-- Spec side: the non-empty (accepted) blocks of a scan, in document order. -/
def acceptedList (bs : List RawBlock) : List RawBlock :=
  bs.filter (fun b => decide (¬ trimChars b.body = []))

/-- Spec side: the extension a block receives under index-based naming —
from its language tag when present, else by content sniffing. -/
def extOf (b : RawBlock) : List Char :=
  if trimChars b.lang = [] then inferExtensionFromContent b.body
  else getExtensionFromLanguage (trimChars b.lang)

/-- Spec side: the gap-free naming scheme — the accepted blocks are numbered
consecutively from the given start index; index 0 becomes `main<ext>` and
index i (i ≥ 1) becomes `file<i+1><ext>`. -/
def namedEntries : List RawBlock → Nat → List FileEntry
  | [], _ => []
  | b :: bs, i => ⟨nameFor i (extOf b), b.body⟩ :: namedEntries bs (i + 1)

/-- Spec side, claim C8 as stated: the content-sniffing table with the `<?php`
rule read as "starts with" (everything else as in the source cascade). -/
def specContentSniffClaimed (content : List Char) : List Char :=
  if containsSub (chars "<!DOCTYPE") content || containsSub (chars "<html") content then
    chars ".html"
  else if cssSelectorTest content then
    chars ".css"
  else if containsSub (chars "import ") content && containsSub (chars "from ") content then
    chars ".js"
  else if containsSub (chars "require(") content then
    chars ".js"
  else if (containsSub (chars "def ") content || containsSub (chars "import ") content) &&
          (containsSub (chars "print(") content && !containsSub (chars "console.") content) then
    chars ".py"
  else if containsSub (chars "package ") content || containsSub (chars "public class") content then
    chars ".java"
  else if (chars "<?php").isPrefixOf content then
    chars ".php"
  else if startsXmlTag content then
    chars ".html"
  else
    chars ".js"

/-- Spec side, claim C8 amended: the same ordered table with the `<?php` rule
corrected to "contains". -/
def specContentSniffAmended (content : List Char) : List Char :=
  if containsSub (chars "<!DOCTYPE") content || containsSub (chars "<html") content then
    chars ".html"
  else if cssSelectorTest content then
    chars ".css"
  else if containsSub (chars "import ") content && containsSub (chars "from ") content then
    chars ".js"
  else if containsSub (chars "require(") content then
    chars ".js"
  else if (containsSub (chars "def ") content || containsSub (chars "import ") content) &&
          (containsSub (chars "print(") content && !containsSub (chars "console.") content) then
    chars ".py"
  else if containsSub (chars "package ") content || containsSub (chars "public class") content then
    chars ".java"
  else if containsSub (chars "<?php") content then
    chars ".php"
  else if startsXmlTag content then
    chars ".html"
  else
    chars ".js"

/-- First entry of an ordered predicate/result table whose predicate holds,
with a default (the spec's recommended form for the priority cascades). -/
def firstTrue : List (Bool × List String) → List String → List String
  | [], d => d
  | (b, r) :: rest, d => if b then r else firstTrue rest d

/-- Spec side, claim C7 as stated: the run-instruction table with the exact
strings the claim gives (no ordinal prefixes). -/
def specRunInstrClaimed (absPath : String) (files : List String) : List String :=
  firstTrue
    [(files.contains "package.json", ["cd " ++ absPath, "npm install", "npm start"]),
     (files.contains "requirements.txt",
       ["cd " ++ absPath, "pip install -r requirements.txt", "python main.py"]),
     (files.contains "index.html", ["cd " ++ absPath, "open index.html"]),
     (files.contains "main.py", ["cd " ++ absPath, "python main.py"]),
     (files.contains "main.js" || files.contains "index.js",
       ["cd " ++ absPath,
        "node " ++ (if files.contains "main.js" then "main.js" else "index.js")]),
     (files.any (fun f => f.endsWith ".html"),
       ["cd " ++ absPath,
        "open " ++ ((files.find? (fun f => f.endsWith ".html")).getD "")])]
    ["cd " ++ absPath, "Check the project files and run the appropriate command"]

/-- Spec side, claim C7 amended: the same ordered table, with each instruction
carrying the "1. ", "2. ", "3. " ordinal prefix the source emits. -/
def specRunInstrAmended (absPath : String) (files : List String) : List String :=
  firstTrue
    [(files.contains "package.json",
       ["1. cd " ++ absPath, "2. npm install", "3. npm start"]),
     (files.contains "requirements.txt",
       ["1. cd " ++ absPath, "2. pip install -r requirements.txt", "3. python main.py"]),
     (files.contains "index.html", ["1. cd " ++ absPath, "2. open index.html"]),
     (files.contains "main.py", ["1. cd " ++ absPath, "2. python main.py"]),
     (files.contains "main.js" || files.contains "index.js",
       ["1. cd " ++ absPath,
        "2. node " ++ (if files.contains "main.js" then "main.js" else "index.js")]),
     (files.any (fun f => f.endsWith ".html"),
       ["1. cd " ++ absPath,
        "2. open " ++ ((files.find? (fun f => f.endsWith ".html")).getD "")])]
    ["1. cd " ++ absPath, "2. Check the project files and run the appropriate command"]

/-- Spec side: the head character of a text, as a list (empty when there is none). -/
def headStart : List Char → List Char
  | d :: _ => [d]
  | [] => []

/-- Spec side: the characters sitting at line starts after position 0. -/
def tailStarts : List Char → List Char
  | [] => []
  | c :: rest =>
    if c = '\n' then headStart rest ++ tailStarts rest
    else tailStarts rest

/-- Spec side: every line-start character of a text — its first character and
each character that follows a newline. -/
def lineStartChars : List Char → List Char
  | [] => []
  | c :: rest => c :: tailStarts (c :: rest)

/-- Spec side, claim C5 amended: the fallback emits exactly when some line-start
character lies outside the excluded set, or a code keyword occurs. -/
def specCodeHeuristic (cleaned : List Char) : Bool :=
  (lineStartChars cleaned).any (fun c => !badStart c) ||
  containsSub (chars "function") cleaned || containsSub (chars "class") cleaned ||
  containsSub (chars "import") cleaned

/-! ### Helper lemmas -/

/-- The head of a dropWhile result does not satisfy the predicate. -/
theorem dropWhile_head_false {p : Char → Bool} :
    ∀ {l : List Char} {c : Char} {rest : List Char},
      l.dropWhile p = c :: rest → p c = false := by
  intro l
  induction l with
  | nil => intro c rest h; simp [List.dropWhile] at h
  | cons a t ih =>
    intro c rest h
    rw [List.dropWhile_cons] at h
    split at h
    · exact ih h
    · rename_i hpa
      cases h
      simpa using hpa

/-- dropWhile is the identity on lists with no satisfying character. -/
theorem dropWhile_noWs {p : Char → Bool} {l : List Char}
    (h : ∀ c ∈ l, p c = false) : l.dropWhile p = l := by
  cases l with
  | nil => rfl
  | cons a t =>
    have ha := h a (List.mem_cons_self a t)
    rw [List.dropWhile_cons]
    simp [ha]

/-- trimRight is the identity on lists with no whitespace character. -/
theorem trimRight_noWs : ∀ {l : List Char}, (∀ c ∈ l, jsSpace c = false) → trimRight l = l := by
  intro l
  induction l with
  | nil => intro _; rfl
  | cons a t ih =>
    intro h
    have ha := h a (List.mem_cons_self a t)
    have ht := ih (fun c hc => h c (List.mem_cons_of_mem _ hc))
    simp [trimRight, ht, ha]

/-- trimChars is the identity on lists with no whitespace character. -/
theorem trimChars_noWs {l : List Char} (h : ∀ c ∈ l, jsSpace c = false) :
    trimChars l = l := by
  unfold trimChars
  rw [dropWhile_noWs h, trimRight_noWs h]

/-- Characters of a trimRight output come from the input. -/
theorem mem_trimRight : ∀ {l c}, c ∈ trimRight l → c ∈ l := by
  intro l
  induction l with
  | nil => intro c h; simp [trimRight] at h
  | cons a t ih =>
    intro c h
    simp only [trimRight] at h
    split at h
    · cases h
    · rcases List.mem_cons.mp h with h1 | h2
      · subst h1; exact List.mem_cons_self _ _
      · exact List.mem_cons_of_mem _ (ih h2)

/-- Characters of a trimChars output come from the input. -/
theorem mem_trimChars {l : List Char} {c : Char} (h : c ∈ trimChars l) : c ∈ l :=
  List.Sublist.mem (mem_trimRight h) (List.dropWhile_sublist _)

/-- trimRight of a cons either vanishes or keeps the head. -/
theorem trimRight_cons_shape (c : Char) (rest : List Char) :
    trimRight (c :: rest) = [] ∨ ∃ r, trimRight (c :: rest) = c :: r := by
  simp only [trimRight]
  split
  · exact Or.inl rfl
  · exact Or.inr ⟨trimRight rest, rfl⟩

/-- trimRight is idempotent. -/
theorem trimRight_idem : ∀ l : List Char, trimRight (trimRight l) = trimRight l := by
  intro l
  induction l with
  | nil => rfl
  | cons c t ih =>
    simp only [trimRight]
    split
    · rfl
    · rename_i hcond
      simp only [trimRight, ih]
      rw [if_neg hcond]

/-- trimChars is idempotent. -/
theorem trimChars_idem (l : List Char) : trimChars (trimChars l) = trimChars l := by
  unfold trimChars
  cases h : l.dropWhile jsSpace with
  | nil => simp [trimRight, List.dropWhile]
  | cons c rest =>
    have hc : jsSpace c = false := dropWhile_head_false h
    rcases trimRight_cons_shape c rest with h0 | ⟨r, hr⟩
    · rw [h0]; simp [List.dropWhile, trimRight]
    · rw [hr, List.dropWhile_cons]
      rw [if_neg (by simp [hc])]
      have hidem := trimRight_idem (c :: rest)
      rw [hr] at hidem
      exact hidem

/-- A character of the list yields a singleton-substring hit. -/
theorem mem_containsSub {c : Char} : ∀ {l : List Char}, c ∈ l → containsSub [c] l = true := by
  intro l
  induction l with
  | nil => intro h; cases h
  | cons a t ih =>
    intro h
    rw [containsSub]
    rcases List.mem_cons.mp h with h1 | h2
    · subst h1; simp [List.isPrefixOf]
    · simp [ih h2]

/-- A successful brace-head test means the brace is present. -/
theorem braceHead_mem : ∀ {l : List Char}, braceHead l = true → braceChar ∈ l := by
  intro l h
  cases l with
  | nil => simp [braceHead] at h
  | cons a t =>
    simp only [braceHead, decide_eq_true_eq] at h
    subst h
    exact List.mem_cons_self _ _

/-- An anchored CSS-selector match contains the opening brace. -/
theorem cssAt_brace : ∀ {l : List Char}, cssAt l = true → braceChar ∈ l := by
  intro l h
  cases l with
  | nil => simp [cssAt] at h
  | cons c rest =>
    cases rest with
    | nil => simp [cssAt] at h
    | cons d t =>
      simp only [cssAt, Bool.and_eq_true] at h
      have hb := braceHead_mem h.2.2
      have h1 : braceChar ∈ (d :: t).dropWhile wordDash :=
        List.Sublist.mem hb (List.dropWhile_sublist _)
      have h2 : braceChar ∈ d :: t :=
        List.Sublist.mem h1 (List.dropWhile_sublist _)
      exact List.mem_cons_of_mem _ h2

/-- A CSS-selector hit anywhere means the content contains the opening brace. -/
theorem cssSelectorTest_brace : ∀ {l : List Char}, cssSelectorTest l = true → braceChar ∈ l := by
  intro l
  induction l with
  | nil => intro h; simp [cssSelectorTest] at h
  | cons c rest ih =>
    intro h
    rw [cssSelectorTest, Bool.or_eq_true] at h
    rcases h with h | h
    · exact cssAt_brace h
    · exact List.mem_cons_of_mem _ (ih h)

/-- The newline-scanning half of the code-likeness test agrees with the
line-start-character description. -/
theorem afterNlTest_eq : ∀ l : List Char,
    afterNlTest l = (tailStarts l).any (fun c => !badStart c) := by
  intro l
  induction l with
  | nil => rfl
  | cons c rest ih =>
    rw [afterNlTest, tailStarts]
    by_cases hc : c = '\n'
    · subst hc
      cases rest with
      | nil => simp [headOutside, headStart, ih]
      | cons d t => simp [headOutside, headStart, ih, List.any_append]
    · simp [hc, ih]

/-- The multiline code-likeness regex test agrees with the line-start-character
description: some line start carries a character outside the excluded set. -/
theorem plainCodeTest_eq (l : List Char) :
    plainCodeTest l = (lineStartChars l).any (fun c => !badStart c) := by
  cases l with
  | nil => rfl
  | cons c rest =>
    rw [plainCodeTest, lineStartChars, List.any_cons, afterNlTest_eq]

/-- Every entry the block loop emits has a body that does not trim to empty. -/
theorem processBlocks_content :
    ∀ (bs : List RawBlock) (idx : Nat) (e : FileEntry),
      e ∈ processBlocks bs idx → ¬ trimChars e.content = [] := by
  intro bs
  induction bs with
  | nil => intro idx e h; simp [processBlocks] at h
  | cons b t ih =>
    intro idx e h
    rw [processBlocks] at h
    split at h
    · exact ih _ _ h
    · rename_i hb
      rcases List.mem_cons.mp h with h1 | h2
      · subst h1; exact hb
      · exact ih _ _ h2

/-- namedEntries produces one entry per block. -/
theorem namedEntries_length : ∀ (bs : List RawBlock) (i : Nat),
    (namedEntries bs i).length = bs.length := by
  intro bs
  induction bs with
  | nil => intro i; rfl
  | cons b t ih => intro i; simp [namedEntries, ih]

/-- namedEntries of a non-empty block list is non-empty. -/
theorem namedEntries_ne_nil {bs : List RawBlock} {i : Nat} (h : ¬ bs = []) :
    ¬ namedEntries bs i = [] := by
  cases bs with
  | nil => exact absurd rfl h
  | cons b t => simp [namedEntries]

/-- Priority-3 naming equals the spec-side per-block extension choice. -/
theorem resolvedName_eq (b : RawBlock) (idx : Nat) :
    resolvedName (trimChars b.lang) b.body idx = nameFor idx (extOf b) := by
  unfold resolvedName
  split <;> rename_i h <;> simp [extOf, h]

/-- Index-based names start with a letter, so normalization leaves them alone. -/
theorem stripLead_nameFor (idx : Nat) (ext : List Char) :
    stripLead (nameFor idx ext) = nameFor idx ext := by
  unfold nameFor
  split <;> rfl

/-- The block loop under the claim's hypotheses is exactly the spec-side
gap-free naming scheme. -/
theorem processBlocks_named :
    ∀ (bs : List RawBlock) (idx : Nat),
      (∀ b ∈ bs, ¬ trimChars b.body = [] →
        trimChars b.pathRaw = [] ∧ findCommentPath b.body = none) →
      processBlocks bs idx = namedEntries (acceptedList bs) idx := by
  intro bs
  induction bs with
  | nil => intro idx _; rfl
  | cons b t ih =>
    intro idx h
    rw [processBlocks]
    split
    · rename_i hb
      have hacc : acceptedList (b :: t) = acceptedList t := by
        simp [acceptedList, List.filter_cons, hb]
      rw [hacc]
      exact ih idx (fun x hx => h x (List.mem_cons_of_mem _ hx))
    · rename_i hb
      obtain ⟨hpath, hcomment⟩ := h b (List.mem_cons_self _ _) hb
      have hacc : acceptedList (b :: t) = b :: acceptedList t := by
        simp [acceptedList, List.filter_cons, hb]
      rw [hacc, namedEntries]
      have hres : resolvePath b idx = nameFor idx (extOf b) := by
        simp [resolvePath, hpath, hb, hcomment, resolvedName_eq, stripLead_nameFor]
      rw [hres]
      rw [ih _ (fun x hx => h x (List.mem_cons_of_mem _ hx))]

/-- Characters of a collapseRun output are never whitespace, and are either the
underscore or characters of the input. -/
theorem collapseRun_mem : ∀ {l : List Char} {b : Bool} {d : Char},
    d ∈ collapseRun l b → jsSpace d = false ∧ (d = '_' ∨ d ∈ l) := by
  intro l
  induction l with
  | nil => intro b d h; simp [collapseRun] at h
  | cons c t ih =>
    intro b d h
    rw [collapseRun] at h
    split at h
    · split at h
      · obtain ⟨h1, h2⟩ := ih h
        exact ⟨h1, h2.imp id (List.mem_cons_of_mem _)⟩
      · rcases List.mem_cons.mp h with h1 | h2
        · subst h1; exact ⟨by decide, Or.inl rfl⟩
        · obtain ⟨h1, h2⟩ := ih h2
          exact ⟨h1, h2.imp id (List.mem_cons_of_mem _)⟩
    · rename_i hc
      rcases List.mem_cons.mp h with h1 | h2
      · subst h1
        exact ⟨by simpa using hc, Or.inr (List.mem_cons_self _ _)⟩
      · obtain ⟨h1, h2⟩ := ih h2
        exact ⟨h1, h2.imp id (List.mem_cons_of_mem _)⟩

/-- collapseRun is the identity on whitespace-free lists. -/
theorem collapseRun_noWs : ∀ {l : List Char} {b : Bool},
    (∀ c ∈ l, jsSpace c = false) → collapseRun l b = l := by
  intro l
  induction l with
  | nil => intro b _; rfl
  | cons c t ih =>
    intro b h
    have hc := h c (List.mem_cons_self c t)
    rw [collapseRun, if_neg (by simp [hc])]
    rw [ih (fun x hx => h x (List.mem_cons_of_mem _ hx))]

/-- Every character of a sanitized folder name is a letter, digit, dash or
underscore — in particular allowed and not whitespace. -/
theorem sanitizeFolderName_chars (task : List Char) :
    ∀ c ∈ sanitizeFolderName task, allowedChar c = true ∧ jsSpace c = false := by
  intro c hc
  unfold sanitizeFolderName at hc
  split at hc
  · revert hc
    revert c
    decide
  · have h1 : c ∈ collapseWs (trimChars (task.filter allowedChar)) :=
      List.Sublist.mem hc (List.take_sublist _ _)
    obtain ⟨hws, hor⟩ := collapseRun_mem h1
    refine ⟨?_, hws⟩
    rcases hor with h2 | h2
    · subst h2; decide
    · have h3 : c ∈ task.filter allowedChar := mem_trimChars h2
      exact (List.mem_filter.mp h3).2

/-- A sanitized folder name has at most 50 characters. -/
theorem sanitizeFolderName_length (task : List Char) :
    (sanitizeFolderName task).length ≤ 50 := by
  unfold sanitizeFolderName
  split
  · decide
  · exact List.length_take_le _ _

/-- A sanitized folder name is never empty. -/
theorem sanitizeFolderName_ne_nil (task : List Char) :
    ¬ sanitizeFolderName task = [] := by
  unfold sanitizeFolderName
  split
  · decide
  · assumption

/-- Sanitization fixes every whitespace-free allowed-character string of length
at most 50. -/
theorem sanitize_fixed {r : List Char}
    (hch : ∀ c ∈ r, allowedChar c = true ∧ jsSpace c = false)
    (hlen : r.length ≤ 50) (hne : ¬ r = []) :
    sanitizeFolderName r = r := by
  have hnws : ∀ c ∈ r, jsSpace c = false := fun c hc => (hch c hc).2
  have hfilter : List.filter allowedChar r = r :=
    List.filter_eq_self.mpr (fun c hc => (hch c hc).1)
  have htrim : trimChars r = r := trimChars_noWs hnws
  have hcoll : collapseWs r = r := by
    unfold collapseWs; exact collapseRun_noWs hnws
  have htake : r.take 50 = r := List.take_of_length_le hlen
  unfold sanitizeFolderName
  rw [hfilter, htrim, hcoll, htake, if_neg hne]

/-- Claim C9: folder-name sanitization is idempotent — applying the sanitization
(strip disallowed characters, trim, collapse whitespace runs to underscores,
truncate to 50, fall back to "coding_task" when empty) to its own output yields
the same string. -/
theorem c9_sanitize_idempotent (task : List Char) :
    sanitizeFolderName (sanitizeFolderName task) = sanitizeFolderName task :=
  sanitize_fixed (sanitizeFolderName_chars task) (sanitizeFolderName_length task)
    (sanitizeFolderName_ne_nil task)

/-- Claim C3: for every task string and markdown input, if extraction yields
zero FileArtifacts then writeFiles fails with the explicit "no files found"
error before any directory is created or file is written — the filesystem state
is returned unchanged. -/
theorem c3_no_files_error (basePath : List String) (task input : List Char)
    (now : Nat) (fs : FSState) (h : parseCodeFiles input = []) :
    writeFiles basePath task input now fs =
      (fs, Except.error "No files found in generated code") := by
  simp [writeFiles, h]

/-- Witness for claim C3 at the empty markdown input. -/
theorem c3_no_files_error_witness :
    parseCodeFiles (chars "") = [] ∧
    writeFiles [] (chars "task") (chars "") 0 ⟨[], []⟩ =
      (⟨[], []⟩, Except.error "No files found in generated code") :=
  ⟨rfl, c3_no_files_error [] (chars "task") (chars "") 0 ⟨[], []⟩ rfl⟩

/-- Claim C10: path resolution strips only a single leading "./" or "/" and
neither rejects nor rewrites ".." segments — for the input with explicit path
"../x.js" the artifact keeps relativePath "../x.js", and the writer joins it to
the project root ["base","t"], writing the file at ["base","x.js"], outside the
project directory. -/
theorem c10_traversal_outside_root :
    (parseCodeFiles (chars "```js:../x.js\nx\n```")).map (fun e => e.filePath) =
      [chars "../x.js"] ∧
    (writeFiles ["base"] (chars "t") (chars "```js:../x.js\nx\n```") 0 ⟨[], []⟩).1.files =
      [(["base", "x.js"], chars "x\n")] ∧
    (["base", "t"] : List String).isPrefixOf ["base", "x.js"] = false := by
  refine ⟨?_, ?_, ?_⟩ <;> decide

/-- Counterexample to claim C6: the input "hello world" passes the code-likeness
test (its first character is not a markdown marker), so materialization does NOT
fail with ExtractionEmpty — it creates a directory and writes main.js. -/
theorem c6_hello_world_counterexample :
    (writeFiles ["base"] (chars "t") (chars "hello world") 0 ⟨[], []⟩).2 =
      Except.ok (["base", "t"], ["main.js"]) ∧
    (writeFiles ["base"] (chars "t") (chars "hello world") 0 ⟨[], []⟩).1.dirs =
      [["base", "t"]] ∧
    (writeFiles ["base"] (chars "t") (chars "hello world") 0 ⟨[], []⟩).1.files =
      [(["base", "t", "main.js"], chars "hello world")] := by
  refine ⟨rfl, ?_, ?_⟩ <;> decide

/-- Claim C6 (amended): the input "hello world" is extracted as one FileArtifact
named main.js whose content is the whole text, so materialization proceeds
rather than failing with ExtractionEmpty. -/
theorem c6_hello_world_materializes :
    parseCodeFiles (chars "hello world") = [⟨chars "main.js", chars "hello world"⟩] := by
  decide

/-- Counterexample to claim C7: with package.json present the source returns the
ordinal-prefixed strings "1. cd ...", "2. npm install", "3. npm start", not the
claim's exact strings "cd ...", "npm install", "npm start". -/
theorem c7_run_instructions_counterexample :
    generateRunInstructions "/p" (some [⟨"package.json", true⟩]) =
      ["1. cd /p", "2. npm install", "3. npm start"] ∧
    specRunInstrClaimed "/p" ["package.json"] =
      ["cd /p", "npm install", "npm start"] ∧
    ¬ generateRunInstructions "/p" (some [⟨"package.json", true⟩]) =
        specRunInstrClaimed "/p" ["package.json"] := by
  refine ⟨rfl, rfl, ?_⟩
  decide

/-- Claim C7 (amended): for every root and directory listing, the instruction
list is determined only by the root's immediate files through the fixed ordered
priority table, each instruction carrying its "1."/"2."/"3." ordinal prefix. -/
theorem c7_run_instructions_table (absPath : String) (entries : List DirEntry) :
    generateRunInstructions absPath (some entries) =
      specRunInstrAmended absPath
        ((entries.filter (fun e => e.isFile)).map (fun e => e.name)) := rfl

/-- Counterexample to claim C8: the source's php rule is a "contains" test, not
"starts with" — on "hello <?php" the source sniffs ".php" while the claim's
table gives ".js". -/
theorem c8_php_counterexample :
    inferExtensionFromContent (chars "hello <?php") = chars ".php" ∧
    specContentSniffClaimed (chars "hello <?php") = chars ".js" ∧
    ¬ (chars ".php") = (chars ".js") := by
  refine ⟨?_, ?_, ?_⟩ <;> decide

/-- Claim C8 (amended): content sniffing follows the claimed first-match-wins
rule table exactly, with the `<?php` rule read as "contains" (the source's CSS
guard is redundant: a selector match already implies a brace is present). -/
theorem c8_content_sniffing_table (content : List Char) :
    inferExtensionFromContent content = specContentSniffAmended content := by
  unfold inferExtensionFromContent specContentSniffAmended
  by_cases h : cssSelectorTest content = true
  · have hb : containsSub [braceChar] content = true :=
      mem_containsSub (cssSelectorTest_brace h)
    simp [h, hb]
  · simp [h]

/-- The fallback only emits an artifact whose content does not trim to empty. -/
theorem fallbackFiles_content {input : List Char} {e : FileEntry}
    (h : e ∈ fallbackFiles input) : ¬ trimChars e.content = [] := by
  unfold fallbackFiles at h
  split at h
  · rename_i hcond
    rcases List.mem_singleton.mp h with rfl
    show ¬ trimChars (trimChars (stripHeaders input true)) = []
    rw [trimChars_idem]
    intro hnil
    rw [hnil] at hcond
    revert hcond
    decide
  · cases h

/-- Counterexample to claim C1: the explicit paths "/" and "//x" survive the
single-leading-slash strip as "" and "/x" — a produced relativePath can be empty
or begin with "/", violating the claimed invariant. -/
theorem c1_relativePath_counterexample :
    parseCodeFiles (chars "```js:/\na\n```\n```js://x\nb\n```") =
      [⟨[], chars "a\n"⟩, ⟨chars "/x", chars "b\n"⟩] := by
  decide

/-- Claim C1 (amended): every FileArtifact produced by extraction and path
resolution has non-empty content that does not trim to empty (empty-content
blocks are discarded); the relativePath half of the claimed invariant does not
hold (see the counterexample). -/
theorem c1_content_nonempty (input : List Char) (e : FileEntry)
    (h : e ∈ parseCodeFiles input) :
    ¬ e.content = [] ∧ ¬ trimChars e.content = [] := by
  suffices hs : ¬ trimChars e.content = [] by
    refine ⟨?_, hs⟩
    intro hnil
    rw [hnil] at hs
    exact hs rfl
  unfold parseCodeFiles at h
  split at h
  · exact fallbackFiles_content h
  · exact processBlocks_content _ _ _ h

/-- Witness for claim C1 at a concrete input and artifact. -/
theorem c1_content_nonempty_witness :
    ¬ (⟨chars "main.js", chars "x = 1"⟩ : FileEntry).content = [] ∧
    ¬ trimChars (⟨chars "main.js", chars "x = 1"⟩ : FileEntry).content = [] :=
  c1_content_nonempty (chars "x = 1") ⟨chars "main.js", chars "x = 1"⟩ (by decide)

/-- Counterexample to claim C2: a block with no explicit path and no language
tag but a "// File:" comment is named by the comment ("a.js", not "main.js");
and an input whose only fenced block is whitespace-only (N = 0) still yields one
artifact through the whole-text fallback instead of zero. -/
theorem c2_naming_counterexample :
    (parseCodeFiles (chars "```\n// File: a.js\nx\n```")).map (fun e => e.filePath) =
      [chars "a.js"] ∧
    ¬ (chars "a.js") = (chars "main.js") ∧
    (parseCodeFiles (chars "```js\n \n```\nfunction f")).length = 1 := by
  refine ⟨?_, ?_, ?_⟩ <;> decide

/-- Claim C2 (amended): for every input whose scan yields at least one non-empty
block, where no non-empty block carries an explicit `:path` or a body `File:`
comment, extraction emits exactly the accepted blocks in document order under
gap-free index naming `main<ext>, file2<ext>, ...` — the index being the count
of previously accepted blocks. -/
theorem c2_gap_free_naming (input : List Char) (bs : List RawBlock)
    (hscan : scanBlocks input = bs)
    (hblocks : ∀ b ∈ bs, ¬ trimChars b.body = [] →
      trimChars b.pathRaw = [] ∧ findCommentPath b.body = none)
    (hne : ¬ acceptedList bs = []) :
    parseCodeFiles input = namedEntries (acceptedList bs) 0 ∧
    (parseCodeFiles input).length = (acceptedList bs).length := by
  have hp : processBlocks (scanBlocks input) 0 = namedEntries (acceptedList bs) 0 := by
    rw [hscan]; exact processBlocks_named bs 0 hblocks
  have hnn : ¬ processBlocks (scanBlocks input) 0 = [] := by
    rw [hp]; exact namedEntries_ne_nil hne
  have h1 : parseCodeFiles input = namedEntries (acceptedList bs) 0 := by
    unfold parseCodeFiles
    rw [if_neg (fun hand => hnn hand.1)]
    exact hp
  exact ⟨h1, by rw [h1, namedEntries_length]⟩

/-- Witness for claim C2 at a one-block input. -/
theorem c2_gap_free_naming_witness :
    parseCodeFiles (chars "```js\na\n```") =
      namedEntries (acceptedList [⟨chars "js", [], chars "a\n"⟩]) 0 ∧
    (parseCodeFiles (chars "```js\na\n```")).length =
      (acceptedList [⟨chars "js", [], chars "a\n"⟩]).length :=
  c2_gap_free_naming (chars "```js\na\n```") [⟨chars "js", [], chars "a\n"⟩]
    (by decide) (by decide) (by decide)

/-- Counterexample to claim C4: in a body whose first line carries a `# File:`
comment and whose second line carries a `// File:` comment, the source resolves
to the `//` path "b.js" (pattern order), not the document-order-first "a.py". -/
theorem c4_comment_priority_counterexample :
    (parseCodeFiles (chars "```\n# File: a.py\n// File: b.js\nx\n```")).map
        (fun e => e.filePath) = [chars "b.js"] ∧
    scanStarts p2At (chars "# File: a.py\n// File: b.js\nx\n") =
      some (chars "a.py") ∧
    ¬ (chars "b.js") = (chars "a.py") := by
  refine ⟨?_, ?_, ?_⟩ <;> decide

/-- Claim C4 (amended): for a non-empty block, a comment-declared path (the four
patterns tried in the fixed order //, #, <!--, /*, the first matching pattern's
leftmost capture winning) is used whenever no explicit `:path` is present, and
an explicit `:path` always beats the comment declaration. -/
theorem c4_comment_path_resolution (b : RawBlock) (idx : Nat) (p : List Char)
    (hbody : ¬ trimChars b.body = []) :
    (trimChars b.pathRaw = [] → findCommentPath b.body = some p →
      ¬ trimChars p = [] → resolvePath b idx = stripLead (trimChars p)) ∧
    (¬ trimChars b.pathRaw = [] →
      resolvePath b idx = stripLead (trimChars b.pathRaw)) := by
  constructor
  · intro h1 h2 h3
    simp [resolvePath, h1, h2, h3, hbody]
  · intro h1
    simp [resolvePath, h1]

/-- Witness for claim C4 at a concrete block. -/
theorem c4_comment_path_resolution_witness :
    resolvePath ⟨[], [], chars "// File: a.js\nx"⟩ 0 =
      stripLead (trimChars (chars "a.js")) :=
  (c4_comment_path_resolution ⟨[], [], chars "// File: a.js\nx"⟩ 0 (chars "a.js")
    (by decide)).1 (by decide) (by decide) (by decide)

/-- Counterexample to claim C5: the code-likeness regex is multiline-anchored,
so "#a\nb" (first character `#`, no keyword) is still emitted as a file because
its second line starts with an ordinary character — the claim predicts zero
artifacts. -/
theorem c5_fallback_counterexample :
    parseCodeFiles (chars "#a\nb") = [⟨chars "main.js", chars "#a\nb"⟩] ∧
    trimChars (stripHeaders (chars "#a\nb") true) = chars "#a\nb" ∧
    badStart '#' = true ∧
    containsSub (chars "function") (chars "#a\nb") = false ∧
    containsSub (chars "class") (chars "#a\nb") = false ∧
    containsSub (chars "import") (chars "#a\nb") = false := by
  refine ⟨?_, ?_, ?_, ?_, ?_, ?_⟩ <;> decide

/-- Claim C5 (amended): when zero fenced blocks are found and the text is
non-empty, the whole cleaned text (line-leading `#+<whitespace>` markers
removed, then trimmed) is emitted as a single artifact exactly when some
line-start character lies outside {#, *, backtick, [, ]} or the cleaned text
contains function/class/import; otherwise nothing is emitted. -/
theorem c5_fallback_heuristic (input : List Char)
    (hscan : scanBlocks input = []) (hne : ¬ trimChars input = []) :
    parseCodeFiles input =
      (if specCodeHeuristic (trimChars (stripHeaders input true)) = true then
        [⟨chars "main" ++ inferExtensionFromContent (trimChars (stripHeaders input true)),
          trimChars (stripHeaders input true)⟩]
       else []) := by
  unfold parseCodeFiles
  rw [hscan]
  rw [if_pos ⟨rfl, hne⟩]
  unfold fallbackFiles specCodeHeuristic
  rw [plainCodeTest_eq]

/-- Witness for claim C5 at a concrete code-like input. -/
theorem c5_fallback_heuristic_witness :
    parseCodeFiles (chars "x = 1") =
      (if specCodeHeuristic (trimChars (stripHeaders (chars "x = 1") true)) = true then
        [⟨chars "main" ++ inferExtensionFromContent (trimChars (stripHeaders (chars "x = 1") true)),
          trimChars (stripHeaders (chars "x = 1") true)⟩]
       else []) :=
  c5_fallback_heuristic (chars "x = 1") (by decide) (by decide)
